import Mathlib

/-!
Verification of the unused-ConfigMap reporter (`pkg/kor/kor.go`).

The Go source is shallowly embedded: Kubernetes API objects become Lean
structures carrying exactly the fields the source reads; the cluster listing
calls become `Except`-valued inputs; slices become lists and the `append`
accumulation loops become folds that append on the right, mirroring the
source's traversal order.
-/

namespace Kor

/-- `volume.ConfigMap` : the direct ConfigMap source of a Pod volume. -/
structure ConfigMapVolumeSource where
  name : String
deriving DecidableEq

/-- One source of a projected volume; the code reads only `source.ConfigMap`. -/
structure ProjectedSource where
  configMap : Option ConfigMapVolumeSource
deriving DecidableEq

/-- `volume.Projected` : a projected volume with its list of sources. -/
structure ProjectedVolume where
  sources : List ProjectedSource
deriving DecidableEq

/-- A Pod volume; the code reads `volume.ConfigMap` and `volume.Projected`. -/
structure Volume where
  configMap : Option ConfigMapVolumeSource
  projected : Option ProjectedVolume
deriving DecidableEq

/-- `env.ValueFrom.ConfigMapKeyRef` : selects a key of a named ConfigMap. -/
structure ConfigMapKeySelector where
  name : String
deriving DecidableEq

/-- `env.ValueFrom` : the source of an environment variable's value. -/
structure EnvVarSource where
  configMapKeyRef : Option ConfigMapKeySelector
deriving DecidableEq

/-- A container environment variable; the code reads only `env.ValueFrom`. -/
structure EnvVar where
  valueFrom : Option EnvVarSource
deriving DecidableEq

/-- `envFrom.ConfigMapRef` : bulk-imports a named ConfigMap. -/
structure ConfigMapEnvSource where
  name : String
deriving DecidableEq

/-- One entry of a container's `EnvFrom` list. -/
structure EnvFromSource where
  configMapRef : Option ConfigMapEnvSource
deriving DecidableEq

/-- A Pod container; the code reads `container.Env` and `container.EnvFrom`. -/
structure Container where
  env : List EnvVar
  envFrom : List EnvFromSource
deriving DecidableEq

/-- A Pod specification; the code reads `pod.Spec.Volumes` and `pod.Spec.Containers`. -/
structure PodSpec where
  volumes : List Volume
  containers : List Container
deriving DecidableEq

/-- A Pod, as far as the source reads it. -/
structure Pod where
  spec : PodSpec
deriving DecidableEq

/-- A ConfigMap inventory item; the code reads only `configmap.Name`. -/
structure ConfigMap where
  name : String
deriving DecidableEq

/-- The five reference slices accumulated by `retrieveVolumesAndEnv`. -/
structure RefPartitions where
  volumesCM : List String
  volumesProjectedCM : List String
  envCM : List String
  envFromCM : List String
  envFromContainerCM : List String
deriving DecidableEq

/-- The body of the loop `for _, source := range volume.Projected.Sources` of
`retrieveVolumesAndEnv`: appends a projected ConfigMap source name. -/
def collectProjectedSource (acc : RefPartitions) (source : ProjectedSource) : RefPartitions :=
  match source.configMap with
  | some cm => { acc with volumesProjectedCM := acc.volumesProjectedCM ++ [cm.name] }
  | none => acc

/-- The body of the loop `for _, volume := range pod.Spec.Volumes` of
`retrieveVolumesAndEnv`. -/
def collectVolume (acc : RefPartitions) (volume : Volume) : RefPartitions :=
  let acc :=
    match volume.configMap with
    | some cm => { acc with volumesCM := acc.volumesCM ++ [cm.name] }
    | none => acc
  match volume.projected with
  | some proj => proj.sources.foldl collectProjectedSource acc
  | none => acc

/-- The body of the loop `for _, env := range container.Env`. -/
def collectEnvVar (acc : RefPartitions) (env : EnvVar) : RefPartitions :=
  match env.valueFrom with
  | some vf =>
    match vf.configMapKeyRef with
    | some ref => { acc with envCM := acc.envCM ++ [ref.name] }
    | none => acc
  | none => acc

/-- The body of the first loop `for _, envFrom := range container.EnvFrom`. -/
def collectEnvFrom (acc : RefPartitions) (envFrom : EnvFromSource) : RefPartitions :=
  match envFrom.configMapRef with
  | some ref => { acc with envFromCM := acc.envFromCM ++ [ref.name] }
  | none => acc

/-- The body of the second, structurally identical loop
`for _, envFrom := range container.EnvFrom`, feeding `envFromContainerCM`. -/
def collectEnvFromContainer (acc : RefPartitions) (envFrom : EnvFromSource) : RefPartitions :=
  match envFrom.configMapRef with
  | some ref => { acc with envFromContainerCM := acc.envFromContainerCM ++ [ref.name] }
  | none => acc

/-- The body of the loop `for _, container := range pod.Spec.Containers` of
`retrieveVolumesAndEnv`: the `Env` loop, then the two identical `EnvFrom`
loops (the second feeding `envFromContainerCM`). -/
def collectContainer (acc : RefPartitions) (container : Container) : RefPartitions :=
  let acc := container.env.foldl collectEnvVar acc
  let acc := container.envFrom.foldl collectEnvFrom acc
  container.envFrom.foldl collectEnvFromContainer acc

/-- The body of the loop `for _, pod := range pods.Items`. -/
def collectPod (acc : RefPartitions) (pod : Pod) : RefPartitions :=
  let acc := pod.spec.volumes.foldl collectVolume acc
  pod.spec.containers.foldl collectContainer acc

/-- The whole extraction pass of `retrieveVolumesAndEnv` over the listed Pods,
starting from the five empty slices. -/
def collectRefs (pods : List Pod) : RefPartitions :=
  pods.foldl collectPod ⟨[], [], [], [], []⟩

/-- `retrieveVolumesAndEnv` : the Pod listing call is modelled as an
`Except`-valued input. On listing failure the Go function returns
`nil, nil, nil, nil, nil, err`; nil slices are modelled as empty lists and the
trailing error value as an `Option String`. -/
def retrieveVolumesAndEnv (podList : Except String (List Pod)) :
    RefPartitions × Option String :=
  match podList with
  | .error err => (⟨[], [], [], [], []⟩, some err)
  | .ok pods => (collectRefs pods, none)

/-- `retrieveConfigMapNames` : maps the listed ConfigMaps to their names,
propagating a listing error. -/
def retrieveConfigMapNames (cmList : Except String (List ConfigMap)) :
    Except String (List String) :=
  match cmList with
  | .error err => .error err
  | .ok configmaps => .ok (configmaps.map (fun configmap => configmap.name))

/-- `calculateDifference` : keeps each inventory name for which the linear scan
over `usedConfigMaps` finds no equal entry, appending in inventory order. -/
def calculateDifference (usedConfigMaps : List String) (configMapNames : List String) :
    List String :=
  configMapNames.foldl (fun difference name =>
    if usedConfigMaps.any (fun usedName => name == usedName) then difference
    else difference ++ [name]) []

/-- `removeDuplicatesAndSort`, factored by the order in which Go's map
iteration yields the distinct keys: given that extraction (some permutation of
the distinct elements), the function sorts it. -/
def removeDuplicatesAndSortGo (extract : List String) : List String :=
  List.insertionSort (fun a b => a ≤ b) extract

/-- `removeDuplicatesAndSort` : collects the distinct elements of the slice
and sorts them lexicographically. The Go map iteration order is arbitrary; the
canonical model extracts the keys in first-occurrence order (`List.dedup`),
which `removeDuplicatesAndSortGo_eq_of_perm` proves immaterial. -/
def removeDuplicatesAndSort (slice : List String) : List String :=
  removeDuplicatesAndSortGo slice.dedup

/-- The header and appended rows handed to the third-party table writer. -/
structure Table where
  header : List String
  rows : List (List String)
deriving DecidableEq

/-- Modelled from the spec: the third-party `tablewriter` renderer
(an external collaborator, not repository code) is abstracted as a concrete
textual rendering of the header row followed by the data rows; the spec asks
only for "a tabular rendering" of those columns and rows. -/
def Table.render (t : Table) : String :=
  String.intercalate " | " t.header ++ "\n"
    ++ String.intercalate "\n" (t.rows.map (String.intercalate " | ")) ++ "\n"

/-- The rows built by the loop `for i, name := range configMapNames`:
row `i` is `[fmt.Sprintf("%d", i+1), name]`. -/
def tableRowsFrom (i : Nat) : List String → List (List String)
  | [] => []
  | name :: rest => [Nat.repr (i + 1), name] :: tableRowsFrom (i + 1) rest

/-- `formatOutput` : the empty case returns the single-line message, the
non-empty case renders the header line and the table. -/
def formatOutput (ns : String) (configMapNames : List String) : String :=
  if configMapNames.length = 0 then
    "No unused config maps found in the namespace: " ++ ns
  else
    let table : Table := ⟨["#", "Config Map Name"], tableRowsFrom 0 configMapNames⟩
    "Unused Config Maps in Namespace: " ++ ns ++ "\n" ++ table.render

/-- `processNamespace`, parameterized by the map-iteration oracle used by each
`removeDuplicatesAndSort` call (Go gives no guarantee on that order). The two
listing calls are the `Except`-valued inputs. -/
def processNamespaceWith (oracle : List String → List String)
    (podList : Except String (List Pod)) (cmList : Except String (List ConfigMap))
    (ns : String) : Except String String :=
  match retrieveVolumesAndEnv podList with
  | (_, some err) => .error err
  | (refs, none) =>
    let volumesCM := removeDuplicatesAndSortGo (oracle refs.volumesCM)
    let volumesProjectedCM := removeDuplicatesAndSortGo (oracle refs.volumesProjectedCM)
    let envCM := removeDuplicatesAndSortGo (oracle refs.envCM)
    let envFromCM := removeDuplicatesAndSortGo (oracle refs.envFromCM)
    let envFromContainerCM := removeDuplicatesAndSortGo (oracle refs.envFromContainerCM)
    match retrieveConfigMapNames cmList with
    | .error err => .error err
    | .ok configMapNames =>
      let usedConfigMaps :=
        volumesCM ++ volumesProjectedCM ++ envCM ++ envFromCM ++ envFromContainerCM
      .ok (formatOutput ns (calculateDifference usedConfigMaps configMapNames))

/-- `processNamespace` with the canonical first-occurrence extraction order. -/
def processNamespace (podList : Except String (List Pod))
    (cmList : Except String (List ConfigMap)) (ns : String) : Except String String :=
  processNamespaceWith (fun l => l.dedup) podList cmList ns

/-- The namespace loop of `GetUnusedConfigmaps`, abstracted over the
per-namespace processing: returns the standard-output report blocks (each is
printed followed by a blank line) and the standard-error messages, in emission
order. A failed namespace contributes only an error line and the loop
continues. -/
def driverLoop (proc : String → Except String String) :
    List String → List String × List String
  | [] => ([], [])
  | ns :: rest =>
    match proc ns with
    | .error err =>
      ((driverLoop proc rest).1,
        ("Failed to process namespace " ++ ns ++ ": " ++ err) :: (driverLoop proc rest).2)
    | .ok output =>
      (output :: (driverLoop proc rest).1, (driverLoop proc rest).2)

/-- `excludeListContains` : linear membership scan (dead code in the source). -/
def excludeListContains (excludeList : List String) (ns : String) : Bool :=
  excludeList.any (fun excluded => excluded == ns)

/-- The ConfigMap names one Pod references through a volume's direct
ConfigMap source (mechanism 1), in traversal order. -/
def podVolumesCM (pod : Pod) : List String :=
  pod.spec.volumes.filterMap (fun v => v.configMap.map (fun cm => cm.name))

/-- The projected ConfigMap source names of one volume. -/
def volumeProjectedCM (v : Volume) : List String :=
  match v.projected with
  | some proj => proj.sources.filterMap (fun s => s.configMap.map (fun cm => cm.name))
  | none => []

/-- The ConfigMap names one Pod references through projected volume sources
(mechanism 2), in traversal order. -/
def podProjectedCM (pod : Pod) : List String :=
  pod.spec.volumes.flatMap volumeProjectedCM

/-- The ConfigMap names one container references through env
`ConfigMapKeyRef` entries. -/
def containerEnvCM (c : Container) : List String :=
  c.env.filterMap (fun e => e.valueFrom.bind (fun vf => vf.configMapKeyRef.map (fun r => r.name)))

/-- The ConfigMap names one Pod references through env `ConfigMapKeyRef`
entries (mechanism 3), in traversal order. -/
def podEnvCM (pod : Pod) : List String :=
  pod.spec.containers.flatMap containerEnvCM

/-- The ConfigMap names one container references through `envFrom`
`ConfigMapRef` entries. -/
def containerEnvFromCM (c : Container) : List String :=
  c.envFrom.filterMap (fun e => e.configMapRef.map (fun r => r.name))

/-- The ConfigMap names one Pod references through `envFrom` `ConfigMapRef`
entries (mechanism 4), in traversal order. -/
def podEnvFromCM (pod : Pod) : List String :=
  pod.spec.containers.flatMap containerEnvFromCM

/-- Pod `pod` references ConfigMap `c` via one of the four mechanisms:
volume ConfigMap source, projected volume ConfigMap source, env
`ConfigMapKeyRef`, or envFrom `ConfigMapRef`. -/
def podReferences (pod : Pod) (c : String) : Prop :=
  (∃ v ∈ pod.spec.volumes, ∃ cm, v.configMap = some cm ∧ cm.name = c) ∨
  (∃ v ∈ pod.spec.volumes, ∃ proj, v.projected = some proj ∧
    ∃ s ∈ proj.sources, ∃ cm, s.configMap = some cm ∧ cm.name = c) ∨
  (∃ ct ∈ pod.spec.containers, ∃ e ∈ ct.env, ∃ vf, e.valueFrom = some vf ∧
    ∃ r, vf.configMapKeyRef = some r ∧ r.name = c) ∨
  (∃ ct ∈ pod.spec.containers, ∃ ef ∈ ct.envFrom, ∃ r, ef.configMapRef = some r ∧ r.name = c)

/-- The per-namespace pipeline core of `processNamespace`: collect the five
reference partitions, deduplicate-and-sort each, concatenate them into
`usedConfigMaps`, and diff the inventory against that union. -/
def unusedOf (pods : List Pod) (inventory : List String) : List String :=
  let refs := collectRefs pods
  calculateDifference
    (removeDuplicatesAndSort refs.volumesCM ++ removeDuplicatesAndSort refs.volumesProjectedCM
      ++ removeDuplicatesAndSort refs.envCM ++ removeDuplicatesAndSort refs.envFromCM
      ++ removeDuplicatesAndSort refs.envFromContainerCM)
    inventory

/-- A concrete admissible map-iteration order: first-occurrence order. -/
def extractFwd (l : List String) : List String := l.dedup

/-- A second concrete admissible map-iteration order: reversed
first-occurrence order. -/
def extractRev (l : List String) : List String := l.dedup.reverse

/-- Concrete fixture: two Pods with duplicate references to the same
ConfigMaps through several mechanisms. -/
def samplePods : List Pod :=
  [⟨⟨[⟨some ⟨"shared-cm"⟩, none⟩],
      [⟨[], [⟨some ⟨"db-cm"⟩⟩, ⟨some ⟨"db-cm"⟩⟩]⟩]⟩⟩,
    ⟨⟨[⟨none, some ⟨[⟨some ⟨"shared-cm"⟩⟩, ⟨none⟩]⟩⟩],
      [⟨[⟨some ⟨some ⟨"env-cm"⟩⟩⟩], []⟩]⟩⟩]

/-- Concrete fixture: a ConfigMap inventory. -/
def sampleCms : List ConfigMap := [⟨"db-cm"⟩, ⟨"shared-cm"⟩, ⟨"unused-cm"⟩]

end Kor

namespace Kor

theorem foldl_collectProjectedSource (sources : List ProjectedSource) (acc : RefPartitions) :
    sources.foldl collectProjectedSource acc =
      { acc with volumesProjectedCM :=
          acc.volumesProjectedCM
            ++ sources.filterMap (fun s => s.configMap.map (fun cm => cm.name)) } := by
  induction sources generalizing acc with
  | nil => simp
  | cons s rest ih =>
    rw [List.foldl_cons]
    cases h : s.configMap with
    | none => simp [collectProjectedSource, h, ih]
    | some cm => simp [collectProjectedSource, h, ih]

theorem collectVolume_eq (acc : RefPartitions) (v : Volume) :
    collectVolume acc v =
      ⟨acc.volumesCM ++ (v.configMap.map (fun cm => cm.name)).toList,
        acc.volumesProjectedCM ++ volumeProjectedCM v,
        acc.envCM, acc.envFromCM, acc.envFromContainerCM⟩ := by
  cases hc : v.configMap <;> cases hp : v.projected <;>
    simp [collectVolume, volumeProjectedCM, hc, hp, foldl_collectProjectedSource]

theorem foldl_collectVolume (volumes : List Volume) (acc : RefPartitions) :
    volumes.foldl collectVolume acc =
      ⟨acc.volumesCM ++ volumes.filterMap (fun v => v.configMap.map (fun cm => cm.name)),
        acc.volumesProjectedCM ++ volumes.flatMap volumeProjectedCM,
        acc.envCM, acc.envFromCM, acc.envFromContainerCM⟩ := by
  induction volumes generalizing acc with
  | nil => simp
  | cons v rest ih =>
    rw [List.foldl_cons, collectVolume_eq, ih]
    cases h : v.configMap <;> simp [h, List.filterMap_cons]

theorem foldl_collectEnvVar (envs : List EnvVar) (acc : RefPartitions) :
    envs.foldl collectEnvVar acc =
      ⟨acc.volumesCM, acc.volumesProjectedCM,
        acc.envCM ++ envs.filterMap
          (fun e => e.valueFrom.bind (fun vf => vf.configMapKeyRef.map (fun r => r.name))),
        acc.envFromCM, acc.envFromContainerCM⟩ := by
  induction envs generalizing acc with
  | nil => simp
  | cons e rest ih =>
    rw [List.foldl_cons]
    cases hv : e.valueFrom with
    | none => simp [collectEnvVar, hv, ih]
    | some vf => cases hr : vf.configMapKeyRef <;> simp [collectEnvVar, hv, hr, ih]

theorem foldl_collectEnvFrom (efs : List EnvFromSource) (acc : RefPartitions) :
    efs.foldl collectEnvFrom acc =
      { acc with envFromCM := acc.envFromCM
          ++ efs.filterMap (fun e => e.configMapRef.map (fun r => r.name)) } := by
  induction efs generalizing acc with
  | nil => simp
  | cons e rest ih =>
    rw [List.foldl_cons]
    cases h : e.configMapRef <;> simp [collectEnvFrom, h, ih]

theorem foldl_collectEnvFromContainer (efs : List EnvFromSource) (acc : RefPartitions) :
    efs.foldl collectEnvFromContainer acc =
      { acc with envFromContainerCM := acc.envFromContainerCM
          ++ efs.filterMap (fun e => e.configMapRef.map (fun r => r.name)) } := by
  induction efs generalizing acc with
  | nil => simp
  | cons e rest ih =>
    rw [List.foldl_cons]
    cases h : e.configMapRef <;> simp [collectEnvFromContainer, h, ih]

theorem collectContainer_eq (acc : RefPartitions) (c : Container) :
    collectContainer acc c =
      ⟨acc.volumesCM, acc.volumesProjectedCM, acc.envCM ++ containerEnvCM c,
        acc.envFromCM ++ containerEnvFromCM c,
        acc.envFromContainerCM ++ containerEnvFromCM c⟩ := by
  simp [collectContainer, foldl_collectEnvVar, foldl_collectEnvFrom,
    foldl_collectEnvFromContainer, containerEnvCM, containerEnvFromCM]

theorem foldl_collectContainer (cs : List Container) (acc : RefPartitions) :
    cs.foldl collectContainer acc =
      ⟨acc.volumesCM, acc.volumesProjectedCM, acc.envCM ++ cs.flatMap containerEnvCM,
        acc.envFromCM ++ cs.flatMap containerEnvFromCM,
        acc.envFromContainerCM ++ cs.flatMap containerEnvFromCM⟩ := by
  induction cs generalizing acc with
  | nil => simp
  | cons c rest ih => rw [List.foldl_cons, collectContainer_eq, ih]; simp

theorem collectPod_eq (acc : RefPartitions) (pod : Pod) :
    collectPod acc pod =
      ⟨acc.volumesCM ++ podVolumesCM pod, acc.volumesProjectedCM ++ podProjectedCM pod,
        acc.envCM ++ podEnvCM pod, acc.envFromCM ++ podEnvFromCM pod,
        acc.envFromContainerCM ++ podEnvFromCM pod⟩ := by
  simp [collectPod, foldl_collectVolume, foldl_collectContainer, podVolumesCM,
    podProjectedCM, podEnvCM, podEnvFromCM]

theorem foldl_collectPod (pods : List Pod) (acc : RefPartitions) :
    pods.foldl collectPod acc =
      ⟨acc.volumesCM ++ pods.flatMap podVolumesCM, acc.volumesProjectedCM ++ pods.flatMap podProjectedCM,
        acc.envCM ++ pods.flatMap podEnvCM, acc.envFromCM ++ pods.flatMap podEnvFromCM,
        acc.envFromContainerCM ++ pods.flatMap podEnvFromCM⟩ := by
  induction pods generalizing acc with
  | nil => simp
  | cons pod rest ih => rw [List.foldl_cons, collectPod_eq, ih]; simp

theorem collectRefs_eq (pods : List Pod) :
    collectRefs pods =
      ⟨pods.flatMap podVolumesCM, pods.flatMap podProjectedCM, pods.flatMap podEnvCM,
        pods.flatMap podEnvFromCM, pods.flatMap podEnvFromCM⟩ := by
  simpa [collectRefs] using foldl_collectPod pods ⟨[], [], [], [], []⟩

end Kor

namespace Kor

theorem foldl_calculateDifference (used : List String) (cms acc : List String) :
    cms.foldl (fun difference name =>
        if used.any (fun usedName => name == usedName) then difference
        else difference ++ [name]) acc =
      acc ++ cms.filter (fun name => !used.any (fun usedName => name == usedName)) := by
  induction cms generalizing acc with
  | nil => simp
  | cons n rest ih =>
    rw [List.foldl_cons, List.filter_cons]
    cases h : used.any (fun usedName => n == usedName) with
    | false =>
      simp only [Bool.false_eq_true, if_false, Bool.not_false, if_true]
      rw [ih]
      simp
    | true =>
      simp only [if_true, Bool.not_true, Bool.false_eq_true, if_false]
      rw [ih]

theorem calculateDifference_eq_filter (used cms : List String) :
    calculateDifference used cms =
      cms.filter (fun name => !used.any (fun usedName => name == usedName)) := by
  simpa [calculateDifference] using foldl_calculateDifference used cms []

theorem mem_calculateDifference {used cms : List String} {x : String} :
    x ∈ calculateDifference used cms ↔ x ∈ cms ∧ x ∉ used := by
  simp [calculateDifference_eq_filter, List.mem_filter]
  aesop

theorem calculateDifference_sublist (used cms : List String) :
    List.Sublist (calculateDifference used cms) cms := by
  rw [calculateDifference_eq_filter]
  exact List.filter_sublist cms

theorem sorted_removeDuplicatesAndSortGo (l : List String) :
    (removeDuplicatesAndSortGo l).Sorted (fun a b : String => a ≤ b) :=
  List.sorted_insertionSort _ l

theorem perm_removeDuplicatesAndSortGo (l : List String) :
    List.Perm (removeDuplicatesAndSortGo l) l :=
  List.perm_insertionSort _ l

theorem removeDuplicatesAndSortGo_eq_of_perm {l₁ l₂ : List String} (h : List.Perm l₁ l₂) :
    removeDuplicatesAndSortGo l₁ = removeDuplicatesAndSortGo l₂ :=
  List.eq_of_perm_of_sorted
    ((perm_removeDuplicatesAndSortGo l₁).trans (h.trans (perm_removeDuplicatesAndSortGo l₂).symm))
    (sorted_removeDuplicatesAndSortGo l₁) (sorted_removeDuplicatesAndSortGo l₂)

theorem mem_removeDuplicatesAndSort {l : List String} {x : String} :
    x ∈ removeDuplicatesAndSort l ↔ x ∈ l := by
  rw [removeDuplicatesAndSort, (perm_removeDuplicatesAndSortGo l.dedup).mem_iff,
    List.mem_dedup]

theorem nodup_removeDuplicatesAndSort (l : List String) :
    (removeDuplicatesAndSort l).Nodup :=
  (perm_removeDuplicatesAndSortGo l.dedup).nodup_iff.mpr (List.nodup_dedup l)

theorem mem_podVolumesCM {pod : Pod} {c : String} :
    c ∈ podVolumesCM pod ↔
      ∃ v ∈ pod.spec.volumes, ∃ cm, v.configMap = some cm ∧ cm.name = c := by
  simp [podVolumesCM, List.mem_filterMap, Option.map_eq_some']

theorem mem_volumeProjectedCM {v : Volume} {c : String} :
    c ∈ volumeProjectedCM v ↔
      ∃ proj, v.projected = some proj ∧
        ∃ s ∈ proj.sources, ∃ cm, s.configMap = some cm ∧ cm.name = c := by
  cases hp : v.projected <;>
    simp [volumeProjectedCM, hp, List.mem_filterMap, Option.map_eq_some']

theorem mem_podProjectedCM {pod : Pod} {c : String} :
    c ∈ podProjectedCM pod ↔
      ∃ v ∈ pod.spec.volumes, ∃ proj, v.projected = some proj ∧
        ∃ s ∈ proj.sources, ∃ cm, s.configMap = some cm ∧ cm.name = c := by
  simp [podProjectedCM, List.mem_flatMap, mem_volumeProjectedCM]

theorem mem_containerEnvCM {ct : Container} {c : String} :
    c ∈ containerEnvCM ct ↔
      ∃ e ∈ ct.env, ∃ vf, e.valueFrom = some vf ∧
        ∃ r, vf.configMapKeyRef = some r ∧ r.name = c := by
  simp [containerEnvCM, List.mem_filterMap, Option.bind_eq_some, Option.map_eq_some']

theorem mem_podEnvCM {pod : Pod} {c : String} :
    c ∈ podEnvCM pod ↔
      ∃ ct ∈ pod.spec.containers, ∃ e ∈ ct.env, ∃ vf, e.valueFrom = some vf ∧
        ∃ r, vf.configMapKeyRef = some r ∧ r.name = c := by
  simp [podEnvCM, List.mem_flatMap, mem_containerEnvCM]

theorem mem_containerEnvFromCM {ct : Container} {c : String} :
    c ∈ containerEnvFromCM ct ↔
      ∃ ef ∈ ct.envFrom, ∃ r, ef.configMapRef = some r ∧ r.name = c := by
  simp [containerEnvFromCM, List.mem_filterMap, Option.map_eq_some']

theorem mem_podEnvFromCM {pod : Pod} {c : String} :
    c ∈ podEnvFromCM pod ↔
      ∃ ct ∈ pod.spec.containers, ∃ ef ∈ ct.envFrom, ∃ r, ef.configMapRef = some r ∧ r.name = c := by
  simp [podEnvFromCM, List.mem_flatMap, mem_containerEnvFromCM]

theorem podReferences_iff {pod : Pod} {c : String} :
    podReferences pod c ↔
      c ∈ podVolumesCM pod ∨ c ∈ podProjectedCM pod ∨ c ∈ podEnvCM pod ∨ c ∈ podEnvFromCM pod := by
  rw [podReferences, mem_podVolumesCM, mem_podProjectedCM, mem_podEnvCM, mem_podEnvFromCM]

end Kor

namespace Kor

theorem tableRowsFrom_eq_enumFrom (i : Nat) (names : List String) :
    tableRowsFrom i names =
      (List.enumFrom i names).map (fun p => [Nat.repr (p.1 + 1), p.2]) := by
  induction names generalizing i with
  | nil => simp [tableRowsFrom]
  | cons name rest ih => simp [tableRowsFrom, List.enumFrom, ih]

theorem removeDuplicatesAndSortGo_oracle {oracle : List String → List String}
    (h : ∀ l, List.Perm (oracle l) l.dedup) (l : List String) :
    removeDuplicatesAndSortGo (oracle l) = removeDuplicatesAndSort l :=
  removeDuplicatesAndSortGo_eq_of_perm (h l)

theorem processNamespaceWith_eq {oracle : List String → List String}
    (h : ∀ l, List.Perm (oracle l) l.dedup)
    (podList : Except String (List Pod)) (cmList : Except String (List ConfigMap))
    (ns : String) :
    processNamespaceWith oracle podList cmList ns = processNamespace podList cmList ns := by
  cases podList with
  | error e => rfl
  | ok pods =>
    cases cmList with
    | error e =>
      simp [processNamespace, processNamespaceWith, retrieveVolumesAndEnv,
        retrieveConfigMapNames]
    | ok cms =>
      simp [processNamespace, processNamespaceWith, retrieveVolumesAndEnv,
        retrieveConfigMapNames, removeDuplicatesAndSortGo_oracle h, removeDuplicatesAndSort]

theorem processNamespace_ok (pods : List Pod) (cms : List ConfigMap) (ns : String) :
    processNamespace (.ok pods) (.ok cms) ns =
      .ok (formatOutput ns (unusedOf pods (cms.map (fun cm => cm.name)))) := rfl

theorem mem_used_iff (pods : List Pod) (C : String) :
    (C ∈ removeDuplicatesAndSort (collectRefs pods).volumesCM
        ++ removeDuplicatesAndSort (collectRefs pods).volumesProjectedCM
        ++ removeDuplicatesAndSort (collectRefs pods).envCM
        ++ removeDuplicatesAndSort (collectRefs pods).envFromCM
        ++ removeDuplicatesAndSort (collectRefs pods).envFromContainerCM) ↔
      ∃ pod ∈ pods, podReferences pod C := by
  simp only [collectRefs_eq, List.mem_append, mem_removeDuplicatesAndSort,
    List.mem_flatMap, podReferences_iff]
  aesop

/-- C1: a ConfigMap name `C` appears in the unused-output of the per-namespace
pipeline (collect the reference partitions, deduplicate-and-sort each,
concatenate, diff against the inventory) iff `C` is in the inventory and no
Pod references `C` via any of the four mechanisms (volume ConfigMap source,
projected volume ConfigMap source, env `ConfigMapKeyRef`, envFrom
`ConfigMapRef`). -/
theorem unused_iff_unreferenced (pods : List Pod) (inventory : List String) (C : String) :
    C ∈ unusedOf pods inventory ↔
      C ∈ inventory ∧ ¬ ∃ pod ∈ pods, podReferences pod C := by
  simp only [unusedOf]
  rw [mem_calculateDifference]
  exact and_congr_right (fun _ => not_congr (mem_used_iff pods C))

end Kor

namespace Kor

/-- C2 counterexample: with no Pods and the inventory listed as
`["b", "a"]`, the Unused Set equals `["b", "a"]`, which is not sorted
lexicographically; with inventory `["a", "a"]` it keeps the duplicate. So the
Unused Set is not sorted and duplicate-free for every inventory listing. -/
theorem unusedOf_unsorted_counterexample :
    unusedOf [] ["b", "a"] = ["b", "a"] ∧
      ¬ List.Sorted (fun a b : String => a ≤ b) (unusedOf [] ["b", "a"]) ∧
      ¬ (unusedOf [] ["a", "a"]).Nodup := by
  refine ⟨rfl, ?_, ?_⟩
  · rw [show unusedOf [] ["b", "a"] = ["b", "a"] from rfl]
    simp [List.sorted_cons]
    decide
  · rw [show unusedOf [] ["a", "a"] = ["a", "a"] from rfl]
    decide

/-- C2 (amended): whenever the inventory listing is itself sorted and
duplicate-free — as a Kubernetes ConfigMap listing is — the Unused Set is
sorted lexicographically and contains no duplicates, regardless of duplicate
references in the source Pods. -/
theorem unusedOf_sorted_nodup (pods : List Pod) (inventory : List String)
    (hs : List.Sorted (fun a b : String => a ≤ b) inventory) (hn : inventory.Nodup) :
    List.Sorted (fun a b : String => a ≤ b) (unusedOf pods inventory) ∧
      (unusedOf pods inventory).Nodup := by
  have hsub : List.Sublist (unusedOf pods inventory) inventory := by
    simp only [unusedOf]
    exact calculateDifference_sublist _ _
  exact ⟨List.Pairwise.sublist hsub hs, List.Nodup.sublist hsub hn⟩

theorem unusedOf_sorted_nodup_witness :
    List.Sorted (fun a b : String => a ≤ b) ["db-cm", "shared-cm", "unused-cm"] ∧
      (["db-cm", "shared-cm", "unused-cm"] : List String).Nodup ∧
      List.Sorted (fun a b : String => a ≤ b)
        (unusedOf samplePods ["db-cm", "shared-cm", "unused-cm"]) ∧
      (unusedOf samplePods ["db-cm", "shared-cm", "unused-cm"]).Nodup := by
  have hs : List.Sorted (fun a b : String => a ≤ b) ["db-cm", "shared-cm", "unused-cm"] := by
    simp [List.sorted_cons]
    decide
  have hn : (["db-cm", "shared-cm", "unused-cm"] : List String).Nodup := by decide
  have h := unusedOf_sorted_nodup samplePods ["db-cm", "shared-cm", "unused-cm"] hs hn
  exact ⟨hs, hn, h.1, h.2⟩

/-- C3: `removeDuplicatesAndSort` returns a lexicographically sorted,
duplicate-free list with the same element set as its input, and applying it to
a list with repeated entries gives the same result as applying it to the list
with duplicates removed first. -/
theorem removeDuplicatesAndSort_spec (l : List String) :
    List.Sorted (fun a b : String => a ≤ b) (removeDuplicatesAndSort l) ∧
      (removeDuplicatesAndSort l).Nodup ∧
      (∀ x, x ∈ removeDuplicatesAndSort l ↔ x ∈ l) ∧
      removeDuplicatesAndSort l = removeDuplicatesAndSort l.dedup := by
  refine ⟨sorted_removeDuplicatesAndSortGo l.dedup, nodup_removeDuplicatesAndSort l,
    fun x => mem_removeDuplicatesAndSort, ?_⟩
  rw [removeDuplicatesAndSort, removeDuplicatesAndSort, List.dedup_idem]

/-- C4: the fourth reference partition (`envFromCM`) and the fifth partition
(`envFromContainerCM`, the duplicate accumulation pass over the same `envFrom`
sources) are equal as sequences, so deduplicating both and deduplicating only
one yields the same used-ConfigMap set. -/
theorem envFrom_partitions_equal (pods : List Pod) :
    (collectRefs pods).envFromCM = (collectRefs pods).envFromContainerCM ∧
      ∀ x, (x ∈ removeDuplicatesAndSort (collectRefs pods).envFromCM
            ++ removeDuplicatesAndSort (collectRefs pods).envFromContainerCM ↔
          x ∈ removeDuplicatesAndSort (collectRefs pods).envFromCM) := by
  constructor
  · rw [collectRefs_eq]
  · intro x
    rw [collectRefs_eq]
    simp [List.mem_append]

/-- C5: if the Pod listing fails, `retrieveVolumesAndEnv` fails with the
propagated error and all five reference-name sequences are empty (the Go
function returns `nil` for each), and `processNamespace` propagates the same
error. -/
theorem retrieveVolumesAndEnv_error_empty (e : String)
    (cmList : Except String (List ConfigMap)) (ns : String) :
    retrieveVolumesAndEnv (.error e) = (⟨[], [], [], [], []⟩, some e) ∧
      processNamespace (.error e) cmList ns = .error e :=
  ⟨rfl, rfl⟩

/-- C6: for an empty unused-name sequence the Reporter returns exactly the
single-line message naming the namespace; in particular a namespace with an
empty ConfigMap inventory yields that message regardless of the Pods. -/
theorem formatOutput_empty_message (ns : String) :
    formatOutput ns [] = "No unused config maps found in the namespace: " ++ ns ∧
      ∀ pods : List Pod, processNamespace (.ok pods) (.ok []) ns =
        .ok ("No unused config maps found in the namespace: " ++ ns) :=
  ⟨rfl, fun _ => rfl⟩

/-- C7: for a non-empty unused-name sequence the Reporter's output begins with
a header line naming the namespace, followed by the table whose columns are
"#" and "Config Map Name" and whose rows list the unused names in sequence
order, row `i` carrying the 1-based index `i + 1`. -/
theorem formatOutput_nonempty_table (ns : String) (names : List String) (h : names ≠ []) :
    formatOutput ns names =
      "Unused Config Maps in Namespace: " ++ ns ++ "\n"
        ++ Table.render ⟨["#", "Config Map Name"],
            names.enum.map (fun p => [Nat.repr (p.1 + 1), p.2])⟩ ∧
      (names.enum.map (fun p => [Nat.repr (p.1 + 1), p.2])).length = names.length := by
  constructor
  · rw [formatOutput, if_neg (by simpa using h), tableRowsFrom_eq_enumFrom]
    rfl
  · simp

theorem formatOutput_nonempty_table_witness :
    formatOutput "default" ["unused-cm"] =
      "Unused Config Maps in Namespace: " ++ "default" ++ "\n"
        ++ Table.render ⟨["#", "Config Map Name"], [["1", "unused-cm"]]⟩ :=
  (formatOutput_nonempty_table "default" ["unused-cm"] (by decide)).1

/-- C8: the per-namespace pipeline is deterministic — for fixed listing
results, two runs of `processNamespace` produce identical output even though
Go's map iteration may hand `removeDuplicatesAndSort` the distinct keys in
different orders on each run. -/
theorem processNamespace_deterministic (o₁ o₂ : List String → List String)
    (h₁ : ∀ l, List.Perm (o₁ l) l.dedup) (h₂ : ∀ l, List.Perm (o₂ l) l.dedup)
    (podList : Except String (List Pod)) (cmList : Except String (List ConfigMap))
    (ns : String) :
    processNamespaceWith o₁ podList cmList ns = processNamespaceWith o₂ podList cmList ns :=
  (processNamespaceWith_eq h₁ podList cmList ns).trans
    (processNamespaceWith_eq h₂ podList cmList ns).symm

theorem processNamespace_deterministic_witness :
    processNamespaceWith extractFwd (.ok samplePods) (.ok sampleCms) "default" =
      processNamespaceWith extractRev (.ok samplePods) (.ok sampleCms) "default" :=
  processNamespace_deterministic extractFwd extractRev
    (fun l => List.Perm.refl l.dedup) (fun l => List.reverse_perm l.dedup)
    (.ok samplePods) (.ok sampleCms) "default"

/-- C9: in the Driver's namespace loop, a failing namespace contributes no
report (only a standard-error line) and every other namespace is still
processed in listing order: the report blocks are exactly the successful
results and the error lines exactly the failed ones. -/
theorem driverLoop_all_or_nothing (proc : String → Except String String) (nss : List String) :
    (driverLoop proc nss).1 = nss.filterMap (fun ns => (proc ns).toOption) ∧
      (driverLoop proc nss).2 = nss.filterMap (fun ns =>
        match proc ns with
        | .error e => some ("Failed to process namespace " ++ ns ++ ": " ++ e)
        | .ok _ => none) := by
  induction nss with
  | nil => exact ⟨rfl, rfl⟩
  | cons ns rest ih =>
    cases h : proc ns with
    | error e => simp [driverLoop, h, ih.1, ih.2, Except.toOption]
    | ok out => simp [driverLoop, h, ih.1, ih.2, Except.toOption]

/-- C10: `calculateDifference` filters the inventory, keeping each occurrence
of a name exactly when it is absent from the used list; its output is a
subsequence of the inventory (order and per-occurrence multiplicity
preserved), with no sorting and no deduplication of its own. -/
theorem calculateDifference_filter_subsequence (used cms : List String) :
    calculateDifference used cms = cms.filter (fun name => decide (¬ name ∈ used)) ∧
      List.Sublist (calculateDifference used cms) cms := by
  constructor
  · rw [calculateDifference_eq_filter]
    refine List.filter_congr (fun a _ => ?_)
    rw [Bool.eq_iff_iff]
    simp
    aesop
  · exact calculateDifference_sublist used cms

end Kor
